import Mathlib

/-!
Verification development for the mlx-vlm model core.

Shallow embedding conventions:
- Tensors are embedded as (nested) lists over ℚ for the exactly-computable
  parts (multimodal fusion, MoE gating) and as functions into ℝ for the
  transcendental parts (rotary frequency tables, attention scales).
- All embeddings model a batch of size one; every operation involved is
  position-wise or acts on the flattened batch, so nothing is lost.
- Machine floats are idealised as exact rationals/reals.
- `mx.argpartition` only guarantees a partial partition; we embed it as the
  deterministic stable insertion sort, a compliant instance.  Theorems about
  concrete selections only use inputs whose relevant scores are distinct, so
  any compliant instance selects the same index sets.
-/

namespace MlxVlm

/-! ## Multimodal fusion (src/mlx_vlm/models/gemma3/gemma3.py) -/

/-- One step of the flattened index assignment
`final_embedding_flattened[image_positions] = updates` from `masked_scatter`
(gemma3.py lines 64-75): walking the flattened embedding together with the
flattened boolean mask, each True position consumes the next update value.
This is exactly what assigning `updates` at `np.where(mask)[0]` does when
the number of updates equals the number of True positions. -/
def scatterSeq : List ℚ → List Bool → List ℚ → List ℚ
  | [], _, _ => []
  | x :: xs, [], _ => x :: xs
  | _ :: xs, true :: ms, us => us.headD 0 :: scatterSeq xs ms us.tail
  | x :: xs, false :: ms, us => x :: scatterSeq xs ms us

/-- `masked_scatter` (gemma3.py lines 59-77) on already-flattened arrays.
The mlx `__setitem__` broadcasts the update array to the shape of the index
array: an update of the same length is written position-wise, a single-element
update is broadcast to every indexed position, and any other length is a
broadcast error. -/
def masked_scatter (finalEmbedding : List ℚ) (imageMaskExpanded : List Bool)
    (scaledImageFeatures : List ℚ) : Except String (List ℚ) :=
  let nPos := imageMaskExpanded.countP (fun b => b)
  if scaledImageFeatures.length = nPos then
    .ok (scatterSeq finalEmbedding imageMaskExpanded scaledImageFeatures)
  else if scaledImageFeatures.length = 1 then
    .ok (scatterSeq finalEmbedding imageMaskExpanded
          (List.replicate nPos (scaledImageFeatures.headD 0)))
  else
    .error "masked_scatter: cannot broadcast updates to masked positions"

/-- `mx.where(mask_expanded, a, b)` where the boolean mask was expanded by
repeating one flag per sequence position along the embedding axis
(gemma3.py lines 144-155): the mask is constant along the embedding axis, so
the element-wise selection acts row-wise. -/
def whereRows (mask : List Bool) (a b : List (List ℚ)) : List (List ℚ) :=
  match mask, a, b with
  | m :: ms, x :: xs, y :: ys => (if m then x else y) :: whereRows ms xs ys
  | _, _, _ => []

/-- `mx.zeros_like` on a list of rows. -/
def zerosLike (rows : List (List ℚ)) : List (List ℚ) :=
  rows.map (fun r => List.replicate r.length (0 : ℚ))

/-- `Model.prepare_inputs_for_multimodal` (gemma3.py lines 121-160), the
fused-embedding part, for a batch of one sequence.
`d` is `embed_dim` read from `image_features.shape`; `hsqrt` is the exact
value of the float `hidden_size ** 0.5` (theorems constrain it by
`hsqrt * hsqrt = hidden_size`); `imageFeatures` is the flattened
`(num_images * tokens_per_image)`-long list of feature vectors.
Follows the source line by line: scale the features, default a missing
pad id to 0, build the three masks, write text rows then zero pad rows via
`mx.where`, and scatter the scaled features into the image-token positions
of the flattened embedding. -/
def prepare_inputs_for_multimodal (d : ℕ) (hsqrt : ℚ) (padTokenId : Option ℤ)
    (imageTokenIndex : ℤ) (imageFeatures : List (List ℚ))
    (inputsEmbeds : List (List ℚ)) (inputIds : List ℤ) :
    Except String (List ℚ) :=
  let scaledImageFeatures := imageFeatures.map (fun v => v.map (fun q => q / hsqrt))
  let pad : ℤ := padTokenId.getD 0
  let textMask := inputIds.map (fun t => decide (t ≠ imageTokenIndex) && decide (t ≠ pad))
  let imageMask := inputIds.map (fun t => decide (t = imageTokenIndex))
  let padMask := inputIds.map (fun t => decide (t = pad))
  let final0 := inputIds.map (fun _ => List.replicate d (0 : ℚ))
  let final1 := whereRows textMask inputsEmbeds final0
  let final2 := whereRows padMask (zerosLike final1) final1
  masked_scatter final2.flatten
    ((imageMask.map (fun b => List.replicate d b)).flatten)
    scaledImageFeatures.flatten

/-- The 4-D attention mask built in `prepare_inputs_for_multimodal`
(gemma3.py lines 162-166) for a batch of one: the element-wise product of the
validity mask expanded at axis 1 with the mask expanded at axis 2, giving
entry `(i, j) = mask[j] * mask[i]`, then a head-broadcast axis is inserted at
axis 1.  Result shape `(1, 1, S, S)` as nested lists. -/
def final_attention_mask_4d (attentionMask : List ℚ) :
    List (List (List (List ℚ))) :=
  [[attentionMask.map (fun ai => attentionMask.map (fun aj => aj * ai))]]

/-- `Model.get_input_embeddings` with pixel values present (gemma3.py lines
99-119): returns the fused embedding together with the 4-D attention mask. -/
def get_input_embeddings (d : ℕ) (hsqrt : ℚ) (padTokenId : Option ℤ)
    (imageTokenIndex : ℤ) (imageFeatures : List (List ℚ))
    (inputsEmbeds : List (List ℚ)) (inputIds : List ℤ)
    (attentionMask : List ℚ) :
    Except String (List ℚ) × List (List (List (List ℚ))) :=
  (prepare_inputs_for_multimodal d hsqrt padTokenId imageTokenIndex
      imageFeatures inputsEmbeds inputIds,
   final_attention_mask_4d attentionMask)

/-- The arguments `Model.__call__` (gemma3.py lines 174-191) passes to
`self.language_model`. -/
structure LMCallArgs where
  inputs : List ℤ
  inputsEmbeds : Except String (List ℚ)
  mask : Option (List (List (List (List ℚ))))

/-- `Model.__call__` (gemma3.py lines 174-191): it calls
`get_input_embeddings`, then invokes the language model with the input ids
and the fused embeddings only.  The 4-D mask returned by
`get_input_embeddings` is not among the arguments, so `mask := none`. -/
def gemma3ModelCall (d : ℕ) (hsqrt : ℚ) (padTokenId : Option ℤ)
    (imageTokenIndex : ℤ) (imageFeatures : List (List ℚ))
    (inputsEmbeds : List (List ℚ)) (inputIds : List ℤ)
    (attentionMask : List ℚ) : LMCallArgs :=
  { inputs := inputIds
    inputsEmbeds := (get_input_embeddings d hsqrt padTokenId imageTokenIndex
        imageFeatures inputsEmbeds inputIds attentionMask).1
    mask := none }

/-- The mask a decoder stack ends up using for a forward call. -/
inductive DecoderMask where
  | external (m : List (List (List (List ℚ))))
  | causal (seqLen : ℕ)

/-- Modelled from the spec: the gemma3 language model (its `language.py` is
not in the sources; only the deepseek language model is) takes an optional
attention mask and, per spec section 4.6, builds a causal attention mask once
per forward call when none is supplied.  This mirrors the in-source
`DeepseekV2Model.__call__` (language.py lines 481-485). -/
def decoderStackMask (supplied : Option (List (List (List (List ℚ)))))
    (seqLen : ℕ) : DecoderMask :=
  match supplied with
  | some m => .external m
  | none => .causal seqLen

/-- The `p`-th row (length-`d` slice) of a flattened `(S, d)` embedding. -/
def rowSlice (xs : List ℚ) (d p : ℕ) : List ℚ :=
  (xs.drop (p * d)).take d

/-- Claim-side reference description of the fused embedding, row by row:
the next image feature vector at an image-token position, the zero vector at
a pad position, the text embedding elsewhere. -/
def fuseRowsRef (d : ℕ) (img pad : ℤ) :
    List ℤ → List (List ℚ) → List (List ℚ) → List (List ℚ)
  | [], _, _ => []
  | _ :: _, [], _ => []
  | t :: ts, e :: es, fs =>
    if t = img then
      fs.headD (List.replicate d 0) :: fuseRowsRef d img pad ts es fs.tail
    else if t = pad then
      List.replicate d 0 :: fuseRowsRef d img pad ts es fs
    else
      e :: fuseRowsRef d img pad ts es fs

/-- The row the two `mx.where` passes of `prepare_inputs_for_multimodal`
leave at a position with token id `t` and text embedding `e`. -/
def fusedTextRow (d : ℕ) (img pad : ℤ) (t : ℤ) (e : List ℚ) : List ℚ :=
  if t = pad then List.replicate d 0
  else if t = img then List.replicate d 0
  else e

/-! ## MoE gating (src/mlx_vlm/models/deepseek_vl_v2/language.py, MoEGate)

The gate is embedded per token at batch size one, where the advanced-indexing
assignments of the source broadcast coherently.  `scores` is the per-token
vector the scoring normalisation (softmax or sigmoid, language.py lines
329-334) produced; both normalisations are transcendental, so theorems
quantify over score vectors and, where needed, assume the positivity both
normalisations guarantee. -/

/-- Insert index `i` into an index list kept ascending by score.  With ties
placed after existing entries this is a stable insertion, giving one
deterministic compliant instance of `mx.argpartition` ordering. -/
def insertLe (s : List ℚ) (i : ℕ) : List ℕ → List ℕ
  | [] => [i]
  | j :: js => if s.getD i 0 < s.getD j 0 then i :: j :: js else j :: insertLe s i js

/-- All indices of `s` sorted by ascending score (stable). -/
def argsortAsc (s : List ℚ) : List ℕ :=
  (List.range s.length).foldl (fun acc i => insertLe s i acc) []

/-- `mx.argpartition(s, kth=k-1)[..., :k]`: indices of the `k` smallest
entries (as the prefix of the stable ascending argsort). -/
def bottomkIdx (s : List ℚ) (k : ℕ) : List ℕ :=
  (argsortAsc s).take k

/-- `mx.argpartition(-s, kth=k-1)[..., :k]`: indices of the `k` largest
entries, obtained exactly as the source does, by partitioning the negated
scores. -/
def topkIdxNeg (s : List ℚ) (k : ℕ) : List ℕ :=
  bottomkIdx (s.map (fun q => -q)) k

/-- `mx.argpartition(s, kth=-k)[..., -k:]`: indices of the `k` largest
entries as the suffix of the ascending argsort. -/
def topkIdxTail (s : List ℚ) (k : ℕ) : List ℕ :=
  (argsortAsc s).drop (s.length - k)

/-- `reshape(n, -1)` on a flat row: cut into `n` chunks of `xs.length / n`. -/
def chunkN {α : Type} : ℕ → ℕ → List α → List (List α)
  | 0, _, _ => []
  | n + 1, d, xs => xs.take d :: chunkN n d (xs.drop d)

/-- `reshape(rows, -1)`. -/
def reshapeRows {α : Type} (rows : ℕ) (xs : List α) : List (List α) :=
  chunkN rows (xs.length / rows) xs

/-- `scores.max(axis=-1)` over one group row. -/
def listMax : List ℚ → ℚ
  | [] => 0
  | x :: xs => xs.foldl max x

/-- Insert a value into a descending-sorted list of values. -/
def insertDesc (x : ℚ) : List ℚ → List ℚ
  | [] => [x]
  | y :: ys => if x > y then x :: y :: ys else y :: insertDesc x ys

/-- Values of a list sorted descending. -/
def sortDescVals (l : List ℚ) : List ℚ :=
  l.foldl (fun acc x => insertDesc x acc) []

/-- `mx.topk(row, 2).sum(axis=-1)`: the sum of the two largest entries of a
group row (language.py line 368). -/
def top2sum (l : List ℚ) : ℚ :=
  ((sortDescVals l).take 2).sum

/-- The gate parameters read from `TextConfig` in `MoEGate.__init__`
(language.py lines 311-324). -/
structure GateConfig where
  top_k : ℕ
  n_routed_experts : ℕ
  n_group : ℕ
  topk_group : ℕ
  routed_scaling_factor : ℚ

/-- The `greedy` branch of `MoEGate.__call__` (language.py lines 336-354),
per token: reshape the scores into `n_group` groups, take each group's max,
drop (zero out) the `n_group - topk_group` lowest-scoring groups, then take
the `top_k` largest remaining scores via `argpartition(-scores)` and gather
them; finally multiply by `routed_scaling_factor` (line 391). -/
def moeGateGreedy (cfg : GateConfig) (scores : List ℚ) : List ℕ × List ℚ :=
  let groups := reshapeRows cfg.n_group scores
  let groupScores := groups.map listMax
  let kDrop := cfg.n_group - cfg.topk_group
  let groupIdx := bottomkIdx groupScores kDrop
  let groups2 := groups.mapIdx (fun g row =>
    if g ∈ groupIdx then List.replicate row.length (0 : ℚ) else row)
  let scores2 := groups2.flatten
  let inds := topkIdxNeg scores2 cfg.top_k
  let w := inds.map (fun i => scores2.getD i 0)
  (inds, w.map (fun q => q * cfg.routed_scaling_factor))

/-- The `noaux_tc` branch of `MoEGate.__call__` (language.py lines 356-387),
per token at batch size one: add the bias-correction vector to the scores,
form group scores as each group's top-2 sum of the corrected scores, pick the
`n_group - topk_group` lowest-scoring group indices, then execute
`scores[batch_idx, seq_idx, group_idx] = 0.0` (line 378) literally: `scores`
was never reshaped into groups here, so the assignment zeroes the single
expert entry whose flat index equals each dropped group index.  Then select
the `top_k` largest entries via `argpartition(scores, kth=-k)[..., -k:]`,
gather the (post-assignment, uncorrected) scores at those indices, and
multiply by `routed_scaling_factor`. -/
def moeGateNoaux (cfg : GateConfig) (e_score_correction_bias scores : List ℚ) :
    List ℕ × List ℚ :=
  let scoresForChoice := List.zipWith (fun a b => a + b) scores e_score_correction_bias
  let groupsC := reshapeRows cfg.n_group scoresForChoice
  let groupScores := groupsC.map top2sum
  let kDrop := cfg.n_group - cfg.topk_group
  let groupIdx := bottomkIdx groupScores kDrop
  let scores2 := scores.mapIdx (fun i v => if i ∈ groupIdx then (0 : ℚ) else v)
  let inds := topkIdxTail scores2 cfg.top_k
  let w := inds.map (fun i => scores2.getD i 0)
  (inds, w.map (fun q => q * cfg.routed_scaling_factor))

/-- The `topk_method` dispatch of `MoEGate.__call__` (lines 336, 356, 389):
an unknown method is a `ValueError`. -/
def moeGateSelect (cfg : GateConfig) (topkMethod : String)
    (e_score_correction_bias scores : List ℚ) :
    Except String (List ℕ × List ℚ) :=
  if topkMethod = "greedy" then .ok (moeGateGreedy cfg scores)
  else if topkMethod = "noaux_tc" then .ok (moeGateNoaux cfg e_score_correction_bias scores)
  else .error "Unknown topk method"

/-- Claim-side reference for the noaux_tc weight contract: the uncorrected
scores with the dropped groups zeroed out whole (spec section 4.4 step 4).
Group membership of expert `i` is `i / (n_experts / n_group)`. -/
def groupZeroedScores (cfg : GateConfig) (e_score_correction_bias scores : List ℚ) :
    List ℚ :=
  let scoresForChoice := List.zipWith (fun a b => a + b) scores e_score_correction_bias
  let groupsC := reshapeRows cfg.n_group scoresForChoice
  let groupScores := groupsC.map top2sum
  let kDrop := cfg.n_group - cfg.topk_group
  let groupIdx := bottomkIdx groupScores kDrop
  let eg := cfg.n_routed_experts / cfg.n_group
  scores.mapIdx (fun i v => if i / eg ∈ groupIdx then (0 : ℚ) else v)

/-! ## YaRN rotary embedding and attention scales
(src/mlx_vlm/models/deepseek_vl_v2/language.py, src/mlx_vlm/models/llava_next/vision.py)

These parts compute with logarithms, real powers and trigonometric rotations,
so they are embedded over ℝ. -/

noncomputable section

/-- `yarn_find_correction_dim` (language.py lines 19-24). -/
def yarn_find_correction_dim (num_rotations dim base max_position_embeddings : ℝ) : ℝ :=
  dim * Real.log (max_position_embeddings / (num_rotations * 2 * Real.pi)) /
    (2 * Real.log base)

/-- `yarn_find_correction_range` (language.py lines 27-36). -/
def yarn_find_correction_range (low_rot high_rot dim base max_position_embeddings : ℝ) :
    ℝ × ℝ :=
  (max (⌊yarn_find_correction_dim low_rot dim base max_position_embeddings⌋ : ℝ) 0,
   min (⌈yarn_find_correction_dim high_rot dim base max_position_embeddings⌉ : ℝ) (dim - 1))

/-- `yarn_get_mscale` (language.py lines 39-42). -/
def yarn_get_mscale (scale mscale : ℝ) : ℝ :=
  if scale ≤ 1 then 1 else 0.1 * mscale * Real.log scale + 1

/-- `yarn_linear_ramp_mask` (language.py lines 45-50) as a function of the
entry index `i` (the `dim` argument of the source only fixes the vector
length `dim // 2`). -/
def yarn_linear_ramp_mask (min_val max_val : ℝ) (i : ℕ) : ℝ :=
  let max_val2 := if min_val = max_val then max_val + 0.001 else max_val
  min (max (((i : ℝ) - min_val) / (max_val2 - min_val)) 0) 1

/-- The constructor arguments of `DeepseekV2YarnRotaryEmbedding`
(language.py lines 53-65).  `dim` is the rotary head dimension. -/
structure YarnConfig where
  dim : ℕ
  base : ℝ
  scaling_factor : ℝ
  original_max_position_embeddings : ℝ
  beta_fast : ℝ
  beta_slow : ℝ
  mscale : ℝ
  mscale_all_dim : ℝ

/-- `freq_extra` (language.py line 70): `base ** (arange(0, dim, 2) / dim)`,
entry `i` of the `dim / 2`-long table. -/
def yarnFreqExtra (c : YarnConfig) (i : ℕ) : ℝ :=
  c.base ^ (((2 * i : ℕ) : ℝ) / (c.dim : ℝ))

/-- `self._freqs` of `DeepseekV2YarnRotaryEmbedding.__init__` (language.py
lines 70-84), entry `i`. -/
def yarnFreqs (c : YarnConfig) (i : ℕ) : ℝ :=
  let freq_extra := yarnFreqExtra c i
  let freq_inter := c.scaling_factor * yarnFreqExtra c i
  let lh := yarn_find_correction_range c.beta_fast c.beta_slow (c.dim : ℝ) c.base
    c.original_max_position_embeddings
  let freq_mask := 1 - yarn_linear_ramp_mask lh.1 lh.2 i
  (freq_inter * freq_extra) / (freq_inter * freq_mask + freq_extra * (1 - freq_mask))

/-- `self.mscale` of `DeepseekV2YarnRotaryEmbedding.__init__` (language.py
lines 67-69). -/
def yarnMscaleRatio (c : YarnConfig) : ℝ :=
  yarn_get_mscale c.scaling_factor c.mscale / yarn_get_mscale c.scaling_factor c.mscale_all_dim

/-- One traditional rotary rotation of an adjacent coordinate pair by the
angle `theta`. -/
def ropeRotatePair (theta : ℝ) (p : ℝ × ℝ) : ℝ × ℝ :=
  (p.1 * Real.cos theta - p.2 * Real.sin theta,
   p.1 * Real.sin theta + p.2 * Real.cos theta)

/-- `DeepseekV2YarnRotaryEmbedding.__call__` (language.py lines 86-97) acting
on the `i`-th coordinate pair of the input at absolute position `pos`
(`mx.fast.rope` with an explicit `freqs` table rotates pair `i` by
`pos / freqs[i]`; `scale=1.0`).  The input is pre-multiplied by the mscale
ratio exactly when that ratio differs from 1. -/
def yarnRotaryCall (c : YarnConfig) (x : ℕ → ℝ × ℝ) (pos : ℕ) (i : ℕ) : ℝ × ℝ :=
  let m := yarnMscaleRatio c
  let xs : ℕ → ℝ × ℝ := if m ≠ 1 then (fun j => (m * (x j).1, m * (x j).2)) else x
  ropeRotatePair ((pos : ℝ) / yarnFreqs c i) (xs i)

/-- The plain (unscaled) rotary path, `nn.RoPE(dim, base)` with the same
traditional pairing (language.py lines 149-154): pair `i` at absolute
position `pos` is rotated by `pos * base ** (-2 i / dim)`. -/
def plainRotaryCall (base : ℝ) (dim : ℕ) (x : ℕ → ℝ × ℝ) (pos : ℕ) (i : ℕ) : ℝ × ℝ :=
  ropeRotatePair ((pos : ℝ) * base ^ (-(((2 * i : ℕ) : ℝ) / (dim : ℝ)))) (x i)

/-- The `rope_scaling` dictionary entries `DeepseekV2Attention.__init__`
reads (language.py lines 156-157), with the `.get` defaults (`factor` 1,
`mscale_all_dim` 0) already applied. -/
structure RopeScalingConfig where
  factor : ℝ
  mscale_all_dim : ℝ

/-- `self.scale` of `DeepseekV2Attention.__init__` (language.py lines
113-115 and 149-160): `q_head_dim ** -0.5`, multiplied by
`yarn_get_mscale(factor, mscale_all_dim) ** 2` when a rope-scaling config is
present with a truthy (nonzero) `mscale_all_dim`. -/
def deepseekAttentionScale (qk_nope_head_dim qk_rope_head_dim : ℕ)
    (rope_scaling : Option RopeScalingConfig) : ℝ :=
  let q_head_dim : ℕ := qk_nope_head_dim + qk_rope_head_dim
  let scale0 : ℝ := (q_head_dim : ℝ) ^ (-(0.5 : ℝ))
  match rope_scaling with
  | none => scale0
  | some rs =>
    if rs.mscale_all_dim ≠ 0 then
      scale0 * yarn_get_mscale rs.factor rs.mscale_all_dim *
        yarn_get_mscale rs.factor rs.mscale_all_dim
    else scale0

end

/-! ## Attention constructors (shape validation) -/

/-- The shape data `Attention.__init__` of the llava_next vision encoder
establishes (vision.py lines 30-63). -/
structure VisionAttentionShape where
  num_heads : ℕ
  head_dim : ℕ

/-- `Attention.__init__` (vision.py lines 30-63): raises `ValueError` at
construction when `dims % num_heads != 0`, otherwise records
`head_dim = dims // num_heads`.  Faithful for `0 < num_heads` (at
`num_heads = 0` Python raises `ZeroDivisionError` instead). -/
def visionAttentionInit (dims num_heads : ℕ) : Except String VisionAttentionShape :=
  if dims % num_heads ≠ 0 then
    .error "The input feature dimensions should be divisible by the number of heads"
  else
    .ok { num_heads := num_heads, head_dim := dims / num_heads }

/-- The shape data `LlamaAttention.__init__` establishes (language.py lines
226-258). -/
structure LlamaAttentionShape where
  n_heads : ℕ
  n_kv_heads : ℕ
  head_dim : ℕ

/-- `LlamaAttention.__init__` (language.py lines 226-258): performs no
divisibility validation at all; `head_dim = hidden_size // n_heads` floors
silently and construction always succeeds (for `0 < n_heads`).  The `Except`
return type only makes it comparable with `visionAttentionInit`. -/
def llamaAttentionInit (hidden_size n_heads n_kv_heads : ℕ) :
    Except String LlamaAttentionShape :=
  .ok { n_heads := n_heads, n_kv_heads := n_kv_heads,
        head_dim := hidden_size / n_heads }

/-! ## Theorems -/

/-! ### Selection-index facts (argpartition instance) -/

theorem insertLe_perm (s : List ℚ) (i : ℕ) (l : List ℕ) :
    (insertLe s i l).Perm (i :: l) := by
  induction l with
  | nil => simp [insertLe]
  | cons j js ih =>
    unfold insertLe
    by_cases h : s.getD i 0 < s.getD j 0
    · rw [if_pos h]
    · rw [if_neg h]
      exact (ih.cons j).trans (List.Perm.swap i j js)

theorem foldl_insertLe_perm (s : List ℚ) (l : List ℕ) :
    ∀ acc : List ℕ, (l.foldl (fun acc i => insertLe s i acc) acc).Perm (acc ++ l) := by
  induction l with
  | nil => intro acc; simp
  | cons i is ih =>
    intro acc
    rw [List.foldl_cons]
    exact (ih (insertLe s i acc)).trans
      (((insertLe_perm s i acc).append_right is).trans List.perm_middle.symm)

theorem argsortAsc_perm (s : List ℚ) :
    (argsortAsc s).Perm (List.range s.length) := by
  simpa [argsortAsc] using foldl_insertLe_perm s (List.range s.length) []

theorem argsortAsc_length (s : List ℚ) : (argsortAsc s).length = s.length :=
  (argsortAsc_perm s).length_eq.trans (List.length_range _)

theorem argsortAsc_nodup (s : List ℚ) : (argsortAsc s).Nodup :=
  (argsortAsc_perm s).symm.nodup (List.nodup_range _)

theorem mem_argsortAsc (s : List ℚ) {i : ℕ} (h : i ∈ argsortAsc s) :
    i < s.length :=
  List.mem_range.mp ((argsortAsc_perm s).mem_iff.mp h)

theorem bottomkIdx_props (s : List ℚ) (k : ℕ) (hk : k ≤ s.length) :
    (bottomkIdx s k).length = k ∧ (bottomkIdx s k).Nodup
      ∧ ∀ i ∈ bottomkIdx s k, i < s.length := by
  refine ⟨?_, ?_, ?_⟩
  · rw [bottomkIdx, List.length_take, argsortAsc_length]
    omega
  · exact (List.take_sublist _ _).nodup (argsortAsc_nodup s)
  · intro i hi
    exact mem_argsortAsc s (List.take_subset _ _ hi)

theorem topkIdxNeg_props (s : List ℚ) (k : ℕ) (hk : k ≤ s.length) :
    (topkIdxNeg s k).length = k ∧ (topkIdxNeg s k).Nodup
      ∧ ∀ i ∈ topkIdxNeg s k, i < s.length := by
  have h := bottomkIdx_props (s.map (fun q => -q)) k (by simpa using hk)
  refine ⟨h.1, h.2.1, ?_⟩
  intro i hi
  simpa using h.2.2 i hi

theorem topkIdxTail_props (s : List ℚ) (k : ℕ) (hk : k ≤ s.length) :
    (topkIdxTail s k).length = k ∧ (topkIdxTail s k).Nodup
      ∧ ∀ i ∈ topkIdxTail s k, i < s.length := by
  refine ⟨?_, ?_, ?_⟩
  · rw [topkIdxTail, List.length_drop, argsortAsc_length]
    omega
  · exact (List.drop_sublist _ _).nodup (argsortAsc_nodup s)
  · intro i hi
    exact mem_argsortAsc s (List.drop_subset _ _ hi)

theorem chunkN_flatten {α : Type} (n d : ℕ) (xs : List α) :
    (chunkN n d xs).flatten = xs.take (n * d) := by
  induction n generalizing xs with
  | zero => simp [chunkN]
  | succ m ih =>
    rw [chunkN, List.flatten_cons, ih, Nat.succ_mul, Nat.add_comm (m * d) d,
      List.take_add]

theorem flatten_length_mapIdx_preserve (l : List (List ℚ))
    (f : ℕ → List ℚ → List ℚ) (hf : ∀ i r, (f i r).length = r.length) :
    ((l.mapIdx f).flatten).length = l.flatten.length := by
  induction l generalizing f with
  | nil => simp
  | cons r rs ih =>
    rw [List.mapIdx_cons, List.flatten_cons, List.flatten_cons,
      List.length_append, List.length_append, hf,
      ih (fun i => f (i + 1)) (fun i => hf (i + 1))]

theorem greedy_scores2_length (cfg : GateConfig) (scores : List ℚ)
    (hlen : scores.length = cfg.n_routed_experts)
    (hdvd : cfg.n_group ∣ cfg.n_routed_experts) :
    ((reshapeRows cfg.n_group scores).mapIdx (fun g row =>
        if g ∈ bottomkIdx ((reshapeRows cfg.n_group scores).map listMax)
            (cfg.n_group - cfg.topk_group)
        then List.replicate row.length (0 : ℚ) else row)).flatten.length
      = scores.length := by
  rw [flatten_length_mapIdx_preserve _ _ (fun i r => by
    by_cases h : i ∈ bottomkIdx ((reshapeRows cfg.n_group scores).map listMax)
        (cfg.n_group - cfg.topk_group) <;> simp [h])]
  rw [reshapeRows, chunkN_flatten, List.take_length_le]
  rw [hlen]
  rcases hdvd with ⟨c, hc⟩
  rcases Nat.eq_zero_or_pos cfg.n_group with hg | hg
  · simp [hc, hg]
  · rw [hc, Nat.mul_div_cancel_left c hg]

/-- C4: for every score vector (any output of the softmax/sigmoid
normalisation) and a valid gate configuration, both the greedy and the
noaux_tc policy return exactly `top_k` expert indices, pairwise distinct and
each below `n_routed_experts`, together with exactly `top_k` weights.
The config-validity hypotheses mirror what the source operations require:
`top_k` candidates must exist, the reshape into `n_group` groups must be
exact, and `mx.topk(scores, 2)` in the noaux_tc branch needs at least two
experts per group. -/
theorem c4_gate_cardinality (cfg : GateConfig) (bias scores : List ℚ)
    (hlen : scores.length = cfg.n_routed_experts)
    (hbias : bias.length = cfg.n_routed_experts)
    (hk : cfg.top_k ≤ cfg.n_routed_experts)
    (hdvd : cfg.n_group ∣ cfg.n_routed_experts)
    (heg : 2 ≤ cfg.n_routed_experts / cfg.n_group) :
    (∃ g, moeGateSelect cfg "greedy" bias scores = .ok g
      ∧ g.1.length = cfg.top_k ∧ g.1.Nodup
      ∧ (∀ i ∈ g.1, i < cfg.n_routed_experts) ∧ g.2.length = cfg.top_k)
    ∧ (∃ n, moeGateSelect cfg "noaux_tc" bias scores = .ok n
      ∧ n.1.length = cfg.top_k ∧ n.1.Nodup
      ∧ (∀ i ∈ n.1, i < cfg.n_routed_experts) ∧ n.2.length = cfg.top_k) := by
  constructor
  · refine ⟨moeGateGreedy cfg scores, by rw [moeGateSelect, if_pos rfl], ?_⟩
    have hs2 := greedy_scores2_length cfg scores hlen hdvd
    have hprops := topkIdxNeg_props _ cfg.top_k (by rw [hs2, hlen]; exact hk)
    simp only [moeGateGreedy]
    refine ⟨hprops.1, hprops.2.1, ?_, by simp [hprops.1]⟩
    intro i hi
    have := hprops.2.2 i hi
    omega
  · refine ⟨moeGateNoaux cfg bias scores, ?_, ?_⟩
    · rw [moeGateSelect, if_neg (by decide), if_pos rfl]
    have hs2 : (scores.mapIdx (fun i v =>
        if i ∈ bottomkIdx ((reshapeRows cfg.n_group
            (List.zipWith (fun a b => a + b) scores bias)).map top2sum)
            (cfg.n_group - cfg.topk_group)
        then (0 : ℚ) else v)).length = scores.length := List.length_mapIdx
    have hprops := topkIdxTail_props _ cfg.top_k (by rw [hs2, hlen]; exact hk)
    simp only [moeGateNoaux]
    refine ⟨hprops.1, hprops.2.1, ?_, by simp [hprops.1]⟩
    intro i hi
    have := hprops.2.2 i hi
    omega

/-- C4 witness: the cardinality statement at a concrete configuration
(`top_k = 2`, 4 experts, 2 groups, `topk_group = 1`) and score vector. -/
theorem c4_gate_cardinality_witness :
    (([(1:ℚ)/4, 1/4, 1/4, 1/4] : List ℚ).length = 4
      ∧ ([(0:ℚ), 0, 0, 0] : List ℚ).length = 4 ∧ 2 ≤ 4 ∧ 2 ∣ 4 ∧ 2 ≤ 4 / 2)
    ∧ ((∃ g, moeGateSelect ⟨2, 4, 2, 1, 1⟩ "greedy" [0, 0, 0, 0]
          [1/4, 1/4, 1/4, 1/4] = .ok g
        ∧ g.1.length = 2 ∧ g.1.Nodup ∧ (∀ i ∈ g.1, i < 4) ∧ g.2.length = 2)
      ∧ (∃ n, moeGateSelect ⟨2, 4, 2, 1, 1⟩ "noaux_tc" [0, 0, 0, 0]
          [1/4, 1/4, 1/4, 1/4] = .ok n
        ∧ n.1.length = 2 ∧ n.1.Nodup ∧ (∀ i ∈ n.1, i < 4) ∧ n.2.length = 2)) :=
  ⟨⟨rfl, rfl, by decide, by decide, by decide⟩,
    c4_gate_cardinality ⟨2, 4, 2, 1, 1⟩ [0, 0, 0, 0] [1/4, 1/4, 1/4, 1/4]
      rfl rfl (by decide) (by decide) (by decide)⟩

/-! ### Fusion lemmas -/

theorem scatterSeq_true_block (r rest : List ℚ) (ms : List Bool) (u us : List ℚ)
    (h : u.length = r.length) :
    scatterSeq (r ++ rest) (List.replicate r.length true ++ ms) (u ++ us)
      = u ++ scatterSeq rest ms us := by
  induction r generalizing u with
  | nil =>
    rw [List.length_eq_zero.mp h]
    simp
  | cons x xs ih =>
    cases u with
    | nil => simp at h
    | cons y ys =>
      simp only [List.length_cons, List.replicate_succ, List.cons_append, scatterSeq,
        List.headD_cons, List.tail_cons, List.append_eq]
      rw [ih ys (by simpa using h)]

theorem scatterSeq_false_block (r rest : List ℚ) (ms : List Bool) (us : List ℚ) :
    scatterSeq (r ++ rest) (List.replicate r.length false ++ ms) us
      = r ++ scatterSeq rest ms us := by
  induction r with
  | nil => simp
  | cons x xs ih =>
    simp only [List.length_cons, List.replicate_succ, List.cons_append, scatterSeq,
      List.append_eq]
    rw [ih]

theorem final2_rows (d : ℕ) (img pad : ℤ) :
    ∀ (ts : List ℤ) (es : List (List ℚ)),
    whereRows (ts.map (fun t => decide (t = pad)))
      (zerosLike (whereRows (ts.map (fun t => decide (t ≠ img) && decide (t ≠ pad))) es
        (ts.map (fun _ => List.replicate d (0 : ℚ)))))
      (whereRows (ts.map (fun t => decide (t ≠ img) && decide (t ≠ pad))) es
        (ts.map (fun _ => List.replicate d (0 : ℚ))))
      = List.zipWith (fusedTextRow d img pad) ts es := by
  intro ts
  induction ts with
  | nil => intro es; cases es <;> rfl
  | cons t ts ih =>
    intro es
    cases es with
    | nil => rfl
    | cons e es =>
      have ih2 := ih es
      simp only [zerosLike] at ih2 ⊢
      simp only [List.map_cons, whereRows, List.zipWith_cons_cons]
      rw [ih2]
      congr 1
      by_cases hp : t = pad
      · simp [fusedTextRow, hp]
      · by_cases hi : t = img <;> simp [fusedTextRow, hp, hi]

theorem countP_replicate_bool (d : ℕ) (b : Bool) :
    (List.replicate d b).countP (fun x => x) = if b then d else 0 := by
  induction d with
  | zero => cases b <;> simp
  | succ n ih =>
    cases b <;> simp_all [List.replicate_succ, List.countP_cons]

theorem countP_mask_flatten (d : ℕ) (img : ℤ) (ts : List ℤ) :
    ((ts.map (fun t => List.replicate d (decide (t = img)))).flatten).countP
        (fun b => b)
      = d * ts.countP (fun t => decide (t = img)) := by
  induction ts with
  | nil => simp
  | cons t ts ih =>
    simp only [List.map_cons, List.flatten_cons, List.countP_append, ih,
      countP_replicate_bool, List.countP_cons]
    by_cases h : t = img <;> simp [h] <;> ring

theorem flatten_length_const {α : Type} (d : ℕ) (l : List (List α))
    (h : ∀ r ∈ l, r.length = d) : l.flatten.length = l.length * d := by
  induction l with
  | nil => simp
  | cons r rs ih =>
    simp only [List.flatten_cons, List.length_append, List.length_cons,
      h r (List.mem_cons_self r rs),
      ih (fun x hx => h x (List.mem_cons_of_mem _ hx))]
    ring

theorem scatter_zip_eq (d : ℕ) (img pad : ℤ) (hip : img ≠ pad) :
    ∀ (ts : List ℤ) (es fs : List (List ℚ)),
      es.length = ts.length →
      (∀ r ∈ es, r.length = d) →
      (∀ r ∈ fs, r.length = d) →
      fs.length = ts.countP (fun t => decide (t = img)) →
      scatterSeq (List.zipWith (fusedTextRow d img pad) ts es).flatten
        ((ts.map (fun t => List.replicate d (decide (t = img)))).flatten) fs.flatten
      = (fuseRowsRef d img pad ts es fs).flatten := by
  intro ts
  induction ts with
  | nil =>
    intro es fs _ _ _ _
    simp [fuseRowsRef, scatterSeq]
  | cons t ts ih =>
    intro es fs hlen hes hfs hcount
    cases es with
    | nil => simp at hlen
    | cons e es =>
      have hlen' : es.length = ts.length := by simpa using hlen
      have hes' : ∀ r ∈ es, r.length = d :=
        fun r hr => hes r (List.mem_cons_of_mem _ hr)
      have he : e.length = d := hes e (List.mem_cons_self e es)
      by_cases hti : t = img
      · have htp : t ≠ pad := by rw [hti]; exact hip
        have hcount' : fs.length = ts.countP (fun t => decide (t = img)) + 1 := by
          simpa [List.countP_cons, hti] using hcount
        cases fs with
        | nil => simp at hcount'
        | cons f fs =>
          have hf : f.length = d := hfs f (List.mem_cons_self f fs)
          have hfs' : ∀ r ∈ fs, r.length = d :=
            fun r hr => hfs r (List.mem_cons_of_mem _ hr)
          have hrow : fusedTextRow d img pad t e = List.replicate d 0 := by
            rw [fusedTextRow, if_neg htp, if_pos hti]
          simp only [List.zipWith_cons_cons, List.map_cons, List.flatten_cons, hrow]
          rw [show (decide (t = img)) = true by simp [hti]]
          rw [show (List.replicate d true)
              = List.replicate (List.replicate d (0 : ℚ)).length true by
            simp]
          rw [scatterSeq_true_block _ _ _ f _ (by simp [hf])]
          rw [ih es fs hlen' hes' hfs' (by simpa using hcount')]
          simp only [fuseRowsRef]
          rw [if_pos hti]
          simp only [List.headD_cons, List.tail_cons, List.flatten_cons]
      · have hcount' : fs.length = ts.countP (fun t => decide (t = img)) := by
          simpa [List.countP_cons, hti] using hcount
        have hrowlen : (fusedTextRow d img pad t e).length = d := by
          rw [fusedTextRow]
          by_cases htp : t = pad
          · simp [htp]
          · simp [htp, hti, he]
        simp only [List.zipWith_cons_cons, List.map_cons, List.flatten_cons]
        rw [show (decide (t = img)) = false by simp [hti]]
        rw [show (List.replicate d false)
            = List.replicate (fusedTextRow d img pad t e).length false by
          rw [hrowlen]]
        rw [scatterSeq_false_block]
        rw [ih es fs hlen' hes' hfs hcount']
        simp only [fuseRowsRef]
        rw [if_neg hti]
        by_cases htp : t = pad
        · rw [fusedTextRow, if_pos htp]
          rw [if_pos htp]
          rw [List.flatten_cons]
        · rw [fusedTextRow, if_neg htp, if_neg hti]
          rw [if_neg htp]
          rw [List.flatten_cons]

theorem prepare_eq_ref (d : ℕ) (hsqrt : ℚ) (padId : Option ℤ) (img : ℤ)
    (feats embs : List (List ℚ)) (ids : List ℤ)
    (hip : img ≠ padId.getD 0)
    (hlen : embs.length = ids.length)
    (hes : ∀ r ∈ embs, r.length = d)
    (hfs : ∀ r ∈ feats, r.length = d)
    (hcount : feats.length = ids.countP (fun t => decide (t = img))) :
    prepare_inputs_for_multimodal d hsqrt padId img feats embs ids
      = .ok (fuseRowsRef d img (padId.getD 0) ids embs
          (feats.map (fun v => v.map (fun q => q / hsqrt)))).flatten := by
  have hscaled_rows : ∀ r ∈ feats.map (fun v => v.map (fun q => q / hsqrt)),
      r.length = d := by
    intro r hr
    rcases List.mem_map.mp hr with ⟨v, hv, rfl⟩
    simpa using hfs v hv
  have hscaled_len : (feats.map (fun v => v.map (fun q => q / hsqrt))).flatten.length
      = feats.length * d := by
    rw [flatten_length_const d _ hscaled_rows, List.length_map]
  simp only [prepare_inputs_for_multimodal]
  rw [final2_rows d img (padId.getD 0) ids embs]
  rw [List.map_map]
  simp only [Function.comp_def]
  rw [masked_scatter]
  rw [if_pos (by rw [hscaled_len, countP_mask_flatten, hcount]; ring)]
  rw [scatter_zip_eq d img (padId.getD 0) hip ids embs _ hlen hes hscaled_rows
    (by rw [List.length_map]; exact hcount)]

theorem headD_eq_getD {α : Type} (l : List α) (dflt : α) :
    l.headD dflt = l.getD 0 dflt := by
  cases l <;> rfl

theorem rowSlice_flatten (d : ℕ) (rows : List (List ℚ))
    (h : ∀ r ∈ rows, r.length = d) :
    ∀ p, p < rows.length → rowSlice rows.flatten d p = rows.getD p [] := by
  induction rows with
  | nil => intro p hp; simp at hp
  | cons r rs ih =>
    intro p hp
    cases p with
    | zero =>
      rw [rowSlice, Nat.zero_mul, List.drop_zero, List.flatten_cons]
      rw [show d = r.length from (h r (List.mem_cons_self r rs)).symm]
      rw [List.take_left]
      rfl
    | succ p =>
      rw [rowSlice, List.flatten_cons]
      have hr : r.length = d := h r (List.mem_cons_self r rs)
      rw [show (p + 1) * d = r.length + p * d by rw [hr]; ring]
      rw [← List.drop_drop, List.drop_left]
      have h2 := ih (fun x hx => h x (List.mem_cons_of_mem _ hx)) p (by simpa using hp)
      rw [rowSlice] at h2
      rw [List.getD_cons_succ]
      exact h2

theorem fuseRowsRef_length (d : ℕ) (img pad : ℤ) :
    ∀ (ts : List ℤ) (es fs : List (List ℚ)), es.length = ts.length →
      (fuseRowsRef d img pad ts es fs).length = ts.length := by
  intro ts
  induction ts with
  | nil => intro es fs _; rfl
  | cons t ts ih =>
    intro es fs hlen
    cases es with
    | nil => simp at hlen
    | cons e es =>
      have hlen' : es.length = ts.length := by simpa using hlen
      simp only [fuseRowsRef]
      by_cases hti : t = img
      · rw [if_pos hti]
        simp [ih es _ hlen']
      · rw [if_neg hti]
        by_cases htp : t = pad
        · rw [if_pos htp]
          simp [ih es _ hlen']
        · rw [if_neg htp]
          simp [ih es _ hlen']

theorem fuseRowsRef_rows_len (d : ℕ) (img pad : ℤ) :
    ∀ (ts : List ℤ) (es fs : List (List ℚ)),
      (∀ r ∈ es, r.length = d) → (∀ r ∈ fs, r.length = d) →
      ∀ r ∈ fuseRowsRef d img pad ts es fs, r.length = d := by
  intro ts
  induction ts with
  | nil => intro es fs _ _ r hr; simp [fuseRowsRef] at hr
  | cons t ts ih =>
    intro es fs hes hfs r hr
    cases es with
    | nil => simp [fuseRowsRef] at hr
    | cons e es =>
      have hes' : ∀ x ∈ es, x.length = d :=
        fun x hx => hes x (List.mem_cons_of_mem _ hx)
      simp only [fuseRowsRef] at hr
      by_cases hti : t = img
      · rw [if_pos hti] at hr
        rcases List.mem_cons.mp hr with rfl | hr2
        · cases fs with
          | nil => simp
          | cons f fs2 => simpa using hfs f (List.mem_cons_self f fs2)
        · exact ih es fs.tail hes'
            (fun x hx => hfs x (List.mem_of_mem_tail hx)) r hr2
      · rw [if_neg hti] at hr
        by_cases htp : t = pad
        · rw [if_pos htp] at hr
          rcases List.mem_cons.mp hr with rfl | hr2
          · simp
          · exact ih es fs hes' hfs r hr2
        · rw [if_neg htp] at hr
          rcases List.mem_cons.mp hr with rfl | hr2
          · exact hes r (List.mem_cons_self r es)
          · exact ih es fs hes' hfs r hr2

theorem countP_take_lt {α : Type} (P : α → Bool) (l : List α) (p : ℕ)
    (hp : p < l.length) (hP : P l[p] = true) :
    (l.take p).countP P < l.countP P := by
  conv_rhs => rw [← List.take_append_drop p l]
  rw [List.countP_append, List.drop_eq_getElem_cons hp, List.countP_cons, hP]
  simp

theorem fuseRowsRef_spec (d : ℕ) (img pad : ℤ) :
    ∀ (ts : List ℤ) (es fs : List (List ℚ)),
      es.length = ts.length →
      fs.length = ts.countP (fun t => decide (t = img)) →
      ∀ p, (hp : p < ts.length) →
        (ts[p] = img →
          (fuseRowsRef d img pad ts es fs).getD p []
            = fs.getD ((ts.take p).countP (fun t => decide (t = img)))
                (List.replicate d 0))
        ∧ (ts[p] ≠ img → ts[p] = pad →
          (fuseRowsRef d img pad ts es fs).getD p [] = List.replicate d 0)
        ∧ (ts[p] ≠ img → ts[p] ≠ pad →
          (fuseRowsRef d img pad ts es fs).getD p [] = es.getD p []) := by
  intro ts
  induction ts with
  | nil => intro es fs _ _ p hp; simp at hp
  | cons t ts ih =>
    intro es fs hlen hcount p hp
    cases es with
    | nil => simp at hlen
    | cons e es =>
      have hlen' : es.length = ts.length := by simpa using hlen
      cases p with
      | zero =>
        simp only [List.getElem_cons_zero, List.take_zero, List.countP_nil,
          fuseRowsRef]
        refine ⟨?_, ?_, ?_⟩
        · intro hti
          rw [if_pos hti, List.getD_cons_zero, headD_eq_getD]
        · intro hti htp
          rw [if_neg hti, if_pos htp, List.getD_cons_zero]
        · intro hti htp
          rw [if_neg hti, if_neg htp, List.getD_cons_zero, List.getD_cons_zero]
      | succ p =>
        have hp' : p < ts.length := by simpa using hp
        by_cases hti : t = img
        · have hcount' : fs.length = ts.countP (fun t => decide (t = img)) + 1 := by
            simpa [List.countP_cons, hti] using hcount
          cases fs with
          | nil => simp at hcount'
          | cons f fs2 =>
            have ih2 := ih es fs2 hlen' (by simpa using hcount') p hp'
            have hcnt : ((t :: ts).take (p + 1)).countP (fun t => decide (t = img))
                = (ts.take p).countP (fun t => decide (t = img)) + 1 := by
              simp [List.take_succ_cons, List.countP_cons, hti]
            have href : fuseRowsRef d img pad (t :: ts) (e :: es) (f :: fs2)
                = f :: fuseRowsRef d img pad ts es fs2 := by
              simp only [fuseRowsRef]
              rw [if_pos hti]
              simp
            refine ⟨?_, ?_, ?_⟩
            · intro hpi
              rw [href, List.getD_cons_succ, hcnt, List.getD_cons_succ]
              exact ih2.1 (by simpa using hpi)
            · intro h1 h2
              rw [href, List.getD_cons_succ]
              exact ih2.2.1 (by simpa using h1) (by simpa using h2)
            · intro h1 h2
              rw [href, List.getD_cons_succ, List.getD_cons_succ]
              exact ih2.2.2 (by simpa using h1) (by simpa using h2)
        · have ihs := ih es fs hlen'
            (by simpa [List.countP_cons, hti] using hcount) p hp'
          have hcnt : ((t :: ts).take (p + 1)).countP (fun t => decide (t = img))
              = (ts.take p).countP (fun t => decide (t = img)) := by
            simp [List.take_succ_cons, List.countP_cons, hti]
          by_cases htp : t = pad
          · have href : fuseRowsRef d img pad (t :: ts) (e :: es) fs
                = List.replicate d 0 :: fuseRowsRef d img pad ts es fs := by
              simp only [fuseRowsRef]
              rw [if_neg hti, if_pos htp]
            refine ⟨?_, ?_, ?_⟩
            · intro hpi
              rw [href, List.getD_cons_succ, hcnt]
              exact ihs.1 (by simpa using hpi)
            · intro h1 h2
              rw [href, List.getD_cons_succ]
              exact ihs.2.1 (by simpa using h1) (by simpa using h2)
            · intro h1 h2
              rw [href, List.getD_cons_succ, List.getD_cons_succ]
              exact ihs.2.2 (by simpa using h1) (by simpa using h2)
          · have href : fuseRowsRef d img pad (t :: ts) (e :: es) fs
                = e :: fuseRowsRef d img pad ts es fs := by
              simp only [fuseRowsRef]
              rw [if_neg hti, if_neg htp]
            refine ⟨?_, ?_, ?_⟩
            · intro hpi
              rw [href, List.getD_cons_succ, hcnt]
              exact ihs.1 (by simpa using hpi)
            · intro h1 h2
              rw [href, List.getD_cons_succ]
              exact ihs.2.1 (by simpa using h1) (by simpa using h2)
            · intro h1 h2
              rw [href, List.getD_cons_succ, List.getD_cons_succ]
              exact ihs.2.2 (by simpa using h1) (by simpa using h2)

/-- C1: fusion exactness.  For a (flattened) batch with matching counts of
image-token positions and image feature vectors, distinct image and pad
sentinels, and `hsqrt` the nonnegative square root of the hidden size, the
fused embedding row at each position equals: the feature vector of matching
rank divided by `hsqrt` at an image-token position (preserving left-to-right
order), the zero vector at a pad position, and the text embedding
elsewhere. -/
theorem c1_fusion_exact (d : ℕ) (hiddenSize hsqrt : ℚ) (padId : Option ℤ)
    (img : ℤ) (feats embs : List (List ℚ)) (ids : List ℤ)
    (hsq : hsqrt * hsqrt = hiddenSize) (hsqnn : 0 ≤ hsqrt)
    (hip : img ≠ padId.getD 0)
    (hlen : embs.length = ids.length)
    (hes : ∀ r ∈ embs, r.length = d)
    (hfs : ∀ r ∈ feats, r.length = d)
    (hcount : feats.length = ids.countP (fun t => decide (t = img))) :
    ∃ out, prepare_inputs_for_multimodal d hsqrt padId img feats embs ids = .ok out
      ∧ ∀ p, (hp : p < ids.length) →
        (ids[p] = img →
          rowSlice out d p
            = (feats.getD ((ids.take p).countP (fun t => decide (t = img))) []).map
                (fun q => q / hsqrt))
        ∧ (ids[p] ≠ img → ids[p] = padId.getD 0 →
          rowSlice out d p = List.replicate d 0)
        ∧ (ids[p] ≠ img → ids[p] ≠ padId.getD 0 →
          rowSlice out d p = embs.getD p []) := by
  have hscaled_rows : ∀ r ∈ feats.map (fun v => v.map (fun q => q / hsqrt)),
      r.length = d := by
    intro r hr
    rcases List.mem_map.mp hr with ⟨v, hv, rfl⟩
    simpa using hfs v hv
  have hscaled_len : (feats.map (fun v => v.map (fun q => q / hsqrt))).length
      = feats.length := List.length_map _ _
  refine ⟨_, prepare_eq_ref d hsqrt padId img feats embs ids hip hlen hes hfs hcount,
    ?_⟩
  intro p hp
  have hreflen := fuseRowsRef_length d img (padId.getD 0) ids embs
    (feats.map (fun v => v.map (fun q => q / hsqrt))) hlen
  have hrefrows := fuseRowsRef_rows_len d img (padId.getD 0) ids embs
    (feats.map (fun v => v.map (fun q => q / hsqrt))) hes hscaled_rows
  have hslice := rowSlice_flatten d _ hrefrows p (by rw [hreflen]; exact hp)
  have hspec := fuseRowsRef_spec d img (padId.getD 0) ids embs
    (feats.map (fun v => v.map (fun q => q / hsqrt))) hlen
    (by rw [hscaled_len]; exact hcount) p hp
  refine ⟨?_, ?_, ?_⟩
  · intro hti
    rw [hslice, hspec.1 hti]
    have hrank : (ids.take p).countP (fun t => decide (t = img)) < feats.length := by
      rw [hcount]
      exact countP_take_lt _ ids p hp (by simpa using hti)
    rw [List.getD_eq_getElem _ _ (by rw [hscaled_len]; exact hrank)]
    rw [List.getElem_map]
    rw [List.getD_eq_getElem feats [] hrank]
  · intro hti htp
    rw [hslice, hspec.2.1 hti htp]
  · intro hti htp
    rw [hslice, hspec.2.2 hti htp]

/-- C1 witness: fusion exactness at `hidden_size = 4` (so `hsqrt = 2`),
pad id 0, image token 7, ids `[1, 7]`, one feature vector. -/
theorem c1_fusion_exact_witness :
    ((2 : ℚ) * 2 = 4 ∧ (0 : ℚ) ≤ 2 ∧ (7 : ℤ) ≠ (some (0 : ℤ)).getD 0
      ∧ ([[5, 6], [8, 9]] : List (List ℚ)).length = ([1, 7] : List ℤ).length
      ∧ (∀ r ∈ ([[5, 6], [8, 9]] : List (List ℚ)), r.length = 2)
      ∧ (∀ r ∈ ([[10, 20]] : List (List ℚ)), r.length = 2)
      ∧ ([[10, 20]] : List (List ℚ)).length
          = ([1, 7] : List ℤ).countP (fun t => decide (t = 7)))
    ∧ ∃ out, prepare_inputs_for_multimodal 2 2 (some 0) 7 [[10, 20]]
        [[5, 6], [8, 9]] [1, 7] = .ok out
      ∧ ∀ p, (hp : p < ([1, 7] : List ℤ).length) →
        (([1, 7] : List ℤ)[p] = 7 →
          rowSlice out 2 p
            = (([[10, 20]] : List (List ℚ)).getD
                ((([1, 7] : List ℤ).take p).countP (fun t => decide (t = 7))) []).map
                (fun q => q / 2))
        ∧ (([1, 7] : List ℤ)[p] ≠ 7 → ([1, 7] : List ℤ)[p] = (some (0 : ℤ)).getD 0 →
          rowSlice out 2 p = List.replicate 2 0)
        ∧ (([1, 7] : List ℤ)[p] ≠ 7 → ([1, 7] : List ℤ)[p] ≠ (some (0 : ℤ)).getD 0 →
          rowSlice out 2 p = ([[5, 6], [8, 9]] : List (List ℚ)).getD p []) :=
  ⟨⟨by norm_num, by norm_num, by decide, rfl, by simp, by simp, by decide⟩,
    c1_fusion_exact 2 4 2 (some 0) 7 [[10, 20]] [[5, 6], [8, 9]] [1, 7]
      (by norm_num) (by norm_num) (by decide) rfl (by simp) (by simp) (by decide)⟩

/-- C3 counterexample: with `embed_dim = 1`, two image-token positions and a
single supplied feature vector `[2]` (a count mismatch: 1 vector for 2
positions), the scatter does not raise: the single flattened element is
silently broadcast to both image slots, returning the padded embedding
`[2, 2]`. -/
theorem c3_broadcast_counterexample :
    ([[(2 : ℚ)]].length ≠ ([5, 5] : List ℤ).countP (fun t => decide (t = 5)))
    ∧ prepare_inputs_for_multimodal 1 1 none 5 [[2]] [[7], [8]] [5, 5]
      = .ok [2, 2] := by
  refine ⟨by decide, ?_⟩
  norm_num [prepare_inputs_for_multimodal, masked_scatter, scatterSeq,
    whereRows, zerosLike, List.replicate_succ]

/-- C3 (amended): a mismatch between the number of image-token positions and
the number of supplied feature vectors is a fatal error of the tensor
runtime broadcast, except in the degenerate case where the flattened feature
array has exactly one element, which `mx.array.__setitem__` silently
broadcasts across all image slots. -/
theorem c3_fusion_mismatch_errors (d : ℕ) (hsqrt : ℚ) (padId : Option ℤ)
    (img : ℤ) (feats embs : List (List ℚ)) (ids : List ℤ)
    (hd : 0 < d)
    (hfs : ∀ r ∈ feats, r.length = d)
    (hcount : feats.length ≠ ids.countP (fun t => decide (t = img)))
    (hone : feats.length * d ≠ 1) :
    ∃ msg, prepare_inputs_for_multimodal d hsqrt padId img feats embs ids
      = .error msg := by
  have hscaled_rows : ∀ r ∈ feats.map (fun v => v.map (fun q => q / hsqrt)),
      r.length = d := by
    intro r hr
    rcases List.mem_map.mp hr with ⟨v, hv, rfl⟩
    simpa using hfs v hv
  have hscaled_len : (feats.map (fun v => v.map (fun q => q / hsqrt))).flatten.length
      = feats.length * d := by
    rw [flatten_length_const d _ hscaled_rows, List.length_map]
  refine ⟨"masked_scatter: cannot broadcast updates to masked positions", ?_⟩
  simp only [prepare_inputs_for_multimodal]
  rw [List.map_map]
  simp only [Function.comp_def]
  rw [masked_scatter]
  rw [if_neg ?hc1, if_neg ?hc2]
  case hc1 =>
    rw [hscaled_len, countP_mask_flatten]
    intro h
    rw [Nat.mul_comm d] at h
    exact hcount (Nat.eq_of_mul_eq_mul_right hd h)
  case hc2 =>
    rw [hscaled_len]
    exact hone

/-- C3 witness: the amended statement at two feature vectors for one
image-token position (embed_dim 1). -/
theorem c3_fusion_mismatch_errors_witness :
    (0 < 1 ∧ (∀ r ∈ ([[2], [3]] : List (List ℚ)), r.length = 1)
      ∧ ([[2], [3]] : List (List ℚ)).length
          ≠ ([5] : List ℤ).countP (fun t => decide (t = 5))
      ∧ ([[2], [3]] : List (List ℚ)).length * 1 ≠ 1)
    ∧ ∃ msg, prepare_inputs_for_multimodal 1 1 none 5 [[2], [3]] [[7]] [5]
        = .error msg :=
  ⟨⟨by decide, by simp, by decide, by decide⟩,
    c3_fusion_mismatch_errors 1 1 none 5 [[2], [3]] [[7]] [5]
      (by decide) (by simp) (by decide) (by decide)⟩

/-- C10: with `pad_token_id` absent (`None`), the fusion substitutes 0 as the
pad id: every position whose token id is 0 (and distinct from the image
token id) receives the zero vector in the fused embedding instead of its
text embedding. -/
theorem c10_pad_none_defaults_to_zero (d : ℕ) (hsqrt : ℚ) (img : ℤ)
    (feats embs : List (List ℚ)) (ids : List ℤ)
    (h0 : img ≠ 0)
    (hlen : embs.length = ids.length)
    (hes : ∀ r ∈ embs, r.length = d)
    (hfs : ∀ r ∈ feats, r.length = d)
    (hcount : feats.length = ids.countP (fun t => decide (t = img))) :
    ∃ out, prepare_inputs_for_multimodal d hsqrt none img feats embs ids = .ok out
      ∧ ∀ p, (hp : p < ids.length) → ids[p] = 0 →
          rowSlice out d p = List.replicate d 0 := by
  have hip : img ≠ (none : Option ℤ).getD 0 := by simpa using h0
  have hscaled_rows : ∀ r ∈ feats.map (fun v => v.map (fun q => q / hsqrt)),
      r.length = d := by
    intro r hr
    rcases List.mem_map.mp hr with ⟨v, hv, rfl⟩
    simpa using hfs v hv
  have hscaled_len : (feats.map (fun v => v.map (fun q => q / hsqrt))).length
      = feats.length := List.length_map _ _
  refine ⟨_, prepare_eq_ref d hsqrt none img feats embs ids hip hlen hes hfs hcount,
    ?_⟩
  intro p hp hzero
  have hreflen := fuseRowsRef_length d img ((none : Option ℤ).getD 0) ids embs
    (feats.map (fun v => v.map (fun q => q / hsqrt))) hlen
  have hrefrows := fuseRowsRef_rows_len d img ((none : Option ℤ).getD 0) ids embs
    (feats.map (fun v => v.map (fun q => q / hsqrt))) hes hscaled_rows
  have hslice := rowSlice_flatten d _ hrefrows p (by rw [hreflen]; exact hp)
  have hspec := fuseRowsRef_spec d img ((none : Option ℤ).getD 0) ids embs
    (feats.map (fun v => v.map (fun q => q / hsqrt))) hlen
    (by rw [hscaled_len]; exact hcount) p hp
  rw [hslice]
  exact hspec.2.1 (by rw [hzero]; exact fun h => h0 h.symm) (by simpa using hzero)

/-- C10 witness: pad id absent, image token 7, ids `[7, 0]`: position 1 with
id 0 receives the zero vector. -/
theorem c10_pad_none_defaults_to_zero_witness :
    ((7 : ℤ) ≠ 0 ∧ ([[4], [5]] : List (List ℚ)).length = ([7, 0] : List ℤ).length
      ∧ (∀ r ∈ ([[4], [5]] : List (List ℚ)), r.length = 1)
      ∧ (∀ r ∈ ([[3]] : List (List ℚ)), r.length = 1)
      ∧ ([[3]] : List (List ℚ)).length
          = ([7, 0] : List ℤ).countP (fun t => decide (t = 7)))
    ∧ ∃ out, prepare_inputs_for_multimodal 1 1 none 7 [[3]] [[4], [5]] [7, 0]
        = .ok out
      ∧ ∀ p, (hp : p < ([7, 0] : List ℤ).length) → ([7, 0] : List ℤ)[p] = 0 →
          rowSlice out 1 p = List.replicate 1 0 :=
  ⟨⟨by decide, rfl, by simp, by simp, by decide⟩,
    c10_pad_none_defaults_to_zero 1 1 7 [[3]] [[4], [5]] [7, 0]
      (by decide) rfl (by simp) (by simp) (by decide)⟩

/-- C5: failing input for the group constraint under the noaux_tc policy.
Configuration: 4 experts in 2 groups of 2, `topk_group = 1`, `top_k = 2`,
zero bias, scores `[0.1, 0.95, 0.9, 0.2]` (all positive, distinct, achievable
as sigmoid outputs).  The corrected group scores are `[1.05, 1.1]`, so group
0 is dropped; the code then zeroes only the single expert entry 0 (the flat
index equal to the dropped group index) instead of the whole group, and the
selected experts `{1, 2}` span both groups, exceeding `topk_group = 1`. -/
theorem c5_group_constraint_violated :
    (moeGateNoaux ⟨2, 4, 2, 1, 1⟩ [0, 0, 0, 0] [1/10, 19/20, 9/10, 1/5]).1 = [2, 1]
    ∧ ((moeGateNoaux ⟨2, 4, 2, 1, 1⟩ [0, 0, 0, 0]
          [1/10, 19/20, 9/10, 1/5]).1.map (fun i => i / (4 / 2))).dedup.length = 2
    ∧ (⟨2, 4, 2, 1, 1⟩ : GateConfig).topk_group = 1 := by
  have h : moeGateNoaux ⟨2, 4, 2, 1, 1⟩ [0, 0, 0, 0] [1/10, 19/20, 9/10, 1/5]
      = ([2, 1], [9/10, 19/20]) := by
    norm_num [moeGateNoaux, reshapeRows, chunkN, top2sum, sortDescVals,
      insertDesc, bottomkIdx, topkIdxTail, argsortAsc, insertLe,
      List.range_succ]
  rw [h]
  exact ⟨rfl, by decide, rfl⟩

/-- C6: failing input for the noaux_tc weight contract, same configuration
and scores as for C5.  The gate selects experts `[2, 1]` with returned
weights `[0.9, 0.95]`, but the uncorrected scores with the dropped group
(group 0, experts 0 and 1) zeroed out whole are `[0, 0, 0.9, 0.2]`: the
claimed weight at the chosen index 1 would be `0`, not `0.95`, because
expert 1 belongs to the dropped group whose entries the code failed to
zero. -/
theorem c6_noaux_weight_contract_violated :
    moeGateNoaux ⟨2, 4, 2, 1, 1⟩ [0, 0, 0, 0] [1/10, 19/20, 9/10, 1/5]
      = ([2, 1], [9/10, 19/20])
    ∧ groupZeroedScores ⟨2, 4, 2, 1, 1⟩ [0, 0, 0, 0] [1/10, 19/20, 9/10, 1/5]
      = [0, 0, 9/10, 1/5]
    ∧ (groupZeroedScores ⟨2, 4, 2, 1, 1⟩ [0, 0, 0, 0]
        [1/10, 19/20, 9/10, 1/5]).getD 1 0
      ≠ (moeGateNoaux ⟨2, 4, 2, 1, 1⟩ [0, 0, 0, 0]
          [1/10, 19/20, 9/10, 1/5]).2.getD 1 0 := by
  have h1 : moeGateNoaux ⟨2, 4, 2, 1, 1⟩ [0, 0, 0, 0] [1/10, 19/20, 9/10, 1/5]
      = ([2, 1], [9/10, 19/20]) := by
    norm_num [moeGateNoaux, reshapeRows, chunkN, top2sum, sortDescVals,
      insertDesc, bottomkIdx, topkIdxTail, argsortAsc, insertLe,
      List.range_succ]
  have h2 : groupZeroedScores ⟨2, 4, 2, 1, 1⟩ [0, 0, 0, 0]
      [1/10, 19/20, 9/10, 1/5] = [0, 0, 9/10, 1/5] := by
    norm_num [groupZeroedScores, reshapeRows, chunkN, top2sum, sortDescVals,
      insertDesc, bottomkIdx, argsortAsc, insertLe, List.range_succ]
  refine ⟨h1, h2, ?_⟩
  rw [h1, h2]
  norm_num

/-! ### YaRN boundary lemmas -/

theorem freq_blend_id (fe m : ℝ) (hfe : fe ≠ 0) :
    (fe * fe) / (fe * m + fe * (1 - m)) = fe := by
  rw [show fe * m + fe * (1 - m) = fe by ring, mul_div_assoc, div_self hfe,
    mul_one]

/-- C7 (amended): for every YaRN configuration with `scaling_factor ≤ 1` the
mscale attenuation ratio is exactly 1; and when `scaling_factor = 1` the
frequency blend collapses to the extrapolated (plain) frequencies, so the
YaRN rotary output equals the plain unscaled rotary path on every input pair
and offset.  (For `scaling_factor < 1` the frequencies differ, see the
counterexample.) -/
theorem c7_yarn_boundary (c : YarnConfig) (hbase : 0 < c.base) :
    (c.scaling_factor ≤ 1 → yarnMscaleRatio c = 1)
    ∧ (c.scaling_factor = 1 →
        ∀ (x : ℕ → ℝ × ℝ) (pos i : ℕ),
          yarnRotaryCall c x pos i = plainRotaryCall c.base c.dim x pos i) := by
  have hms : c.scaling_factor ≤ 1 → yarnMscaleRatio c = 1 := by
    intro hs
    rw [yarnMscaleRatio, yarn_get_mscale, yarn_get_mscale, if_pos hs, if_pos hs]
    norm_num
  refine ⟨hms, ?_⟩
  intro hs x pos i
  have hm := hms (le_of_eq hs)
  have hfe : 0 < yarnFreqExtra c i := Real.rpow_pos_of_pos hbase _
  have hfreq : yarnFreqs c i = yarnFreqExtra c i := by
    simp only [yarnFreqs, hs, one_mul]
    exact freq_blend_id _ _ hfe.ne'
  have hangle : (pos : ℝ) / yarnFreqs c i
      = (pos : ℝ) * c.base ^ (-(((2 * i : ℕ) : ℝ) / (c.dim : ℝ))) := by
    rw [hfreq, yarnFreqExtra, Real.rpow_neg hbase.le, div_eq_mul_inv]
  simp only [yarnRotaryCall, plainRotaryCall, hm]
  rw [if_neg (by norm_num)]
  rw [hangle]

/-- C7 witness: the amended statement at the neutral configuration
`scaling_factor = 1`, base 10000, rotary dimension 4. -/
theorem c7_yarn_boundary_witness :
    0 < (⟨4, 10000, 1, 4096, 32, 1, 1, 0⟩ : YarnConfig).base
    ∧ (((⟨4, 10000, 1, 4096, 32, 1, 1, 0⟩ : YarnConfig).scaling_factor ≤ 1 →
          yarnMscaleRatio ⟨4, 10000, 1, 4096, 32, 1, 1, 0⟩ = 1)
      ∧ ((⟨4, 10000, 1, 4096, 32, 1, 1, 0⟩ : YarnConfig).scaling_factor = 1 →
          ∀ (x : ℕ → ℝ × ℝ) (pos i : ℕ),
            yarnRotaryCall ⟨4, 10000, 1, 4096, 32, 1, 1, 0⟩ x pos i
              = plainRotaryCall (⟨4, 10000, 1, 4096, 32, 1, 1, 0⟩ : YarnConfig).base
                  (⟨4, 10000, 1, 4096, 32, 1, 1, 0⟩ : YarnConfig).dim x pos i)) :=
  ⟨by norm_num, c7_yarn_boundary ⟨4, 10000, 1, 4096, 32, 1, 1, 0⟩ (by norm_num)⟩

theorem rpow_ten_thousand_half : (10000 : ℝ) ^ ((1 : ℝ) / 2) = 100 := by
  rw [show (10000 : ℝ) = (100 : ℝ) ^ (2 : ℕ) by norm_num]
  rw [← Real.rpow_natCast (100 : ℝ) 2, ← Real.rpow_mul (by norm_num : (0:ℝ) ≤ 100)]
  norm_num

theorem yarn_cex_floor :
    ⌊yarn_find_correction_dim 32 ((4 : ℕ) : ℝ) 10000 4096⌋ = 0 := by
  have hpi3 := Real.pi_gt_three
  have hpi4 := Real.pi_le_four
  have hden : (0:ℝ) < 32 * 2 * Real.pi := by positivity
  have hM : (0:ℝ) < Real.log 10000 := Real.log_pos (by norm_num)
  have hX1 : (1:ℝ) ≤ 4096 / (32 * 2 * Real.pi) := by
    rw [le_div_iff hden]
    nlinarith
  have hX2 : 4096 / (32 * 2 * Real.pi) < 100 := by
    rw [div_lt_iff hden]
    nlinarith
  have hXpos : (0:ℝ) < 4096 / (32 * 2 * Real.pi) := by positivity
  have h2L : 2 * Real.log (4096 / (32 * 2 * Real.pi)) < Real.log 10000 := by
    have hsq : (4096 / (32 * 2 * Real.pi)) ^ (2:ℕ) < 10000 := by nlinarith
    have := Real.log_lt_log (by positivity) hsq
    rw [Real.log_pow] at this
    push_cast at this
    linarith
  rw [Int.floor_eq_zero_iff, yarn_find_correction_dim, Set.mem_Ico]
  constructor
  · apply div_nonneg
    · push_cast
      nlinarith [Real.log_nonneg hX1]
    · nlinarith
  · rw [div_lt_one (by nlinarith)]
    push_cast
    nlinarith [Real.log_nonneg hX1]

theorem yarn_cex_ceil :
    ⌈yarn_find_correction_dim 1 ((4 : ℕ) : ℝ) 10000 4096⌉ = 2 := by
  have hpi3 := Real.pi_gt_three
  have hpi4 := Real.pi_le_four
  have hden : (0:ℝ) < 1 * 2 * Real.pi := by positivity
  have hM : (0:ℝ) < Real.log 10000 := Real.log_pos (by norm_num)
  have hY1 : (100:ℝ) < 4096 / (1 * 2 * Real.pi) := by
    rw [lt_div_iff hden]
    nlinarith
  have hY2 : 4096 / (1 * 2 * Real.pi) ≤ 10000 := by
    rw [div_le_iff hden]
    nlinarith
  have hYpos : (0:ℝ) < 4096 / (1 * 2 * Real.pi) := by positivity
  have h2L : Real.log 10000 < 2 * Real.log (4096 / (1 * 2 * Real.pi)) := by
    have hsq : (10000:ℝ) < (4096 / (1 * 2 * Real.pi)) ^ (2:ℕ) := by nlinarith
    have := Real.log_lt_log (by norm_num) hsq
    rw [Real.log_pow] at this
    push_cast at this
    linarith
  have hLM : Real.log (4096 / (1 * 2 * Real.pi)) ≤ Real.log 10000 :=
    Real.log_le_log hYpos hY2
  rw [Int.ceil_eq_iff, yarn_find_correction_dim]
  push_cast
  constructor
  · rw [lt_div_iff (by nlinarith)]
    nlinarith
  · rw [div_le_iff (by nlinarith)]
    nlinarith

theorem yarn_cex_range :
    yarn_find_correction_range 32 1 ((4 : ℕ) : ℝ) 10000 4096 = ((0:ℝ), 2) := by
  rw [yarn_find_correction_range, yarn_cex_floor, yarn_cex_ceil]
  rw [show ((0:ℤ):ℝ) = (0:ℝ) by norm_num, show ((2:ℤ):ℝ) = (2:ℝ) by norm_num]
  rw [max_eq_left le_rfl, min_eq_left (by push_cast; norm_num)]

theorem yarn_cex_ramp : yarn_linear_ramp_mask 0 2 1 = 1/2 := by
  simp only [yarn_linear_ramp_mask]
  rw [if_neg (by norm_num : ¬(0:ℝ) = 2)]
  rw [show ((((1:ℕ):ℝ) - 0) / (2 - 0)) = (1/2 : ℝ) by push_cast; norm_num]
  rw [max_eq_left (by norm_num), min_eq_left (by norm_num)]

theorem yarn_cex_freq_extra :
    yarnFreqExtra ⟨4, 10000, 1/2, 4096, 32, 1, 1, 0⟩ 1 = 100 := by
  show (10000:ℝ) ^ (((2 * 1 : ℕ) : ℝ) / (((4:ℕ)) : ℝ)) = 100
  rw [show (((2 * 1 : ℕ) : ℝ) / (((4:ℕ)) : ℝ)) = (1:ℝ)/2 by push_cast; norm_num]
  exact rpow_ten_thousand_half

theorem yarn_cex_freqs :
    yarnFreqs ⟨4, 10000, 1/2, 4096, 32, 1, 1, 0⟩ 1 = 200/3 := by
  simp only [yarnFreqs]
  rw [yarn_cex_range]
  rw [show ((0:ℝ), (2:ℝ)).1 = (0:ℝ) from rfl,
    show ((0:ℝ), (2:ℝ)).2 = (2:ℝ) from rfl]
  rw [yarn_cex_ramp, yarn_cex_freq_extra]
  norm_num

/-- C7 counterexample: at `scaling_factor = 1/2 ≤ 1` (base 10000, rotary
dimension 4, the default correction parameters), the mscale ratio is 1 but
the blended frequency table is not the plain one: at pair index 1 the YaRN
frequency is 200/3 against the plain 100, so at position 1 the input pair
`(1, 0)` is rotated by 3/200 against 1/100, and the outputs differ (cosine is
strictly decreasing there). -/
theorem c7_yarn_lt_one_counterexample :
    (⟨4, 10000, 1/2, 4096, 32, 1, 1, 0⟩ : YarnConfig).scaling_factor ≤ 1
    ∧ yarnRotaryCall ⟨4, 10000, 1/2, 4096, 32, 1, 1, 0⟩
        (fun _ => (1, 0)) 1 1
      ≠ plainRotaryCall (10000 : ℝ) 4 (fun _ => (1, 0)) 1 1 := by
  have hpi3 := Real.pi_gt_three
  constructor
  · show (1/2 : ℝ) ≤ 1
    norm_num
  · have hmr : yarnMscaleRatio ⟨4, 10000, 1/2, 4096, 32, 1, 1, 0⟩ = 1 := by
      show yarn_get_mscale (1/2) 1 / yarn_get_mscale (1/2) 0 = 1
      rw [yarn_get_mscale, yarn_get_mscale, if_pos (by norm_num),
        if_pos (by norm_num)]
      norm_num
    have hyarn : yarnRotaryCall ⟨4, 10000, 1/2, 4096, 32, 1, 1, 0⟩
        (fun _ => ((1:ℝ), (0:ℝ))) 1 1
        = (Real.cos (3/200), Real.sin (3/200)) := by
      simp only [yarnRotaryCall, hmr]
      rw [if_neg (by norm_num)]
      rw [yarn_cex_freqs, ropeRotatePair]
      rw [show ((1:ℕ):ℝ) / (200/3 : ℝ) = (3/200 : ℝ) by push_cast; norm_num]
      norm_num
    have hplain : plainRotaryCall (10000 : ℝ) 4 (fun _ => ((1:ℝ), (0:ℝ))) 1 1
        = (Real.cos (1/100), Real.sin (1/100)) := by
      simp only [plainRotaryCall, ropeRotatePair]
      rw [show ((1:ℕ):ℝ) * (10000:ℝ) ^ (-(((2 * 1 : ℕ) : ℝ) / (((4:ℕ)) : ℝ)))
          = (1/100 : ℝ) by
        rw [show (((2 * 1 : ℕ) : ℝ) / (((4:ℕ)) : ℝ)) = (1:ℝ)/2 by
          push_cast; norm_num]
        rw [Real.rpow_neg (by norm_num), rpow_ten_thousand_half]
        push_cast
        norm_num]
      norm_num
    intro heq
    rw [hyarn, hplain, Prod.mk.injEq] at heq
    have hlt : Real.cos (3/200) < Real.cos (1/100) := by
      refine Real.strictAntiOn_cos ⟨by norm_num, by linarith⟩
        ⟨by norm_num, by linarith⟩ (by norm_num)
    exact absurd heq.1 (ne_of_lt hlt)

/-- C9 counterexample: `LlamaAttention.__init__` with `hidden_size = 5` and
`num_attention_heads = 2` (not divisible) constructs successfully with the
silently floored `head_dim = 2`; no error is raised at construction time. -/
theorem c9_llama_attention_no_check :
    llamaAttentionInit 5 2 2 = .ok ⟨2, 2, 2⟩ ∧ 5 % 2 ≠ 0 :=
  ⟨rfl, by decide⟩

/-- C9 (amended): the vision-encoder `Attention.__init__` raises at
construction exactly when `dims` is not divisible by `num_heads`, but
`LlamaAttention.__init__` performs no such check: its construction always
succeeds, with `head_dim` silently floored to `hidden_size / n_heads`. -/
theorem c9_attention_construction_check (dims num_heads hidden n_heads n_kv : ℕ)
    (hpos : 0 < num_heads) :
    ((∃ e, visionAttentionInit dims num_heads = .error e) ↔ dims % num_heads ≠ 0)
    ∧ ∃ s, llamaAttentionInit hidden n_heads n_kv = .ok s
        ∧ s.head_dim = hidden / n_heads := by
  constructor
  · unfold visionAttentionInit
    by_cases hd : dims % num_heads ≠ 0
    · simp [hd]
    · simp [hd]
  · exact ⟨_, rfl, rfl⟩

/-- C9 witness: the amended statement at `dims = 6`, `num_heads = 4`,
`hidden = 5`, `n_heads = 2`. -/
theorem c9_attention_construction_check_witness :
    0 < 4 ∧
    (((∃ e, visionAttentionInit 6 4 = .error e) ↔ 6 % 4 ≠ 0)
      ∧ ∃ s, llamaAttentionInit 5 2 2 = .ok s ∧ s.head_dim = 5 / 2) :=
  ⟨by decide, c9_attention_construction_check 6 4 5 2 2 (by decide)⟩

/-- C8: the latent-attention scale is `q_head_dim ** -0.5` (with
`q_head_dim = qk_nope_head_dim + qk_rope_head_dim`), and when a rope-scaling
config with nonzero `mscale_all_dim` is present it is additionally multiplied
by the square of `mscale = 1` if `factor ≤ 1` else
`0.1 * mscale_all_dim * ln factor + 1`. -/
theorem c8_deepseek_attention_scale (dn dr : ℕ) (rs : Option RopeScalingConfig) :
    (∀ r, rs = some r → r.mscale_all_dim ≠ 0 →
      deepseekAttentionScale dn dr rs =
        ((dn + dr : ℕ) : ℝ) ^ (-(0.5 : ℝ)) *
          (if r.factor ≤ 1 then (1 : ℝ)
           else 0.1 * r.mscale_all_dim * Real.log r.factor + 1) ^ 2)
    ∧ ((rs = none ∨ ∃ r, rs = some r ∧ r.mscale_all_dim = 0) →
      deepseekAttentionScale dn dr rs = ((dn + dr : ℕ) : ℝ) ^ (-(0.5 : ℝ))) := by
  constructor
  · intro r hrs hm
    subst hrs
    simp only [deepseekAttentionScale, yarn_get_mscale]
    rw [if_pos hm]
    by_cases hf : r.factor ≤ 1
    · rw [if_pos hf]; ring
    · rw [if_neg hf]; ring
  · rintro (hrs | ⟨r, hrs, hm⟩)
    · subst hrs; rfl
    · subst hrs
      simp only [deepseekAttentionScale]
      rw [if_neg (by simp [hm])]

/-- C8 witness: the scale formula at `qk_nope_head_dim = 2`,
`qk_rope_head_dim = 2`, rope scaling `factor = 2`, `mscale_all_dim = 3`. -/
theorem c8_deepseek_attention_scale_witness :
    (some (⟨2, 3⟩ : RopeScalingConfig) = some ⟨2, 3⟩
      ∧ (⟨2, 3⟩ : RopeScalingConfig).mscale_all_dim ≠ 0)
    ∧ deepseekAttentionScale 2 2 (some ⟨2, 3⟩) =
        ((2 + 2 : ℕ) : ℝ) ^ (-(0.5 : ℝ)) *
          (if ((⟨2, 3⟩ : RopeScalingConfig).factor : ℝ) ≤ 1 then (1 : ℝ)
           else 0.1 * (⟨2, 3⟩ : RopeScalingConfig).mscale_all_dim *
             Real.log (⟨2, 3⟩ : RopeScalingConfig).factor + 1) ^ 2 :=
  ⟨⟨rfl, by norm_num⟩,
    (c8_deepseek_attention_scale 2 2 (some ⟨2, 3⟩)).1 ⟨2, 3⟩ rfl (by norm_num)⟩

/-- C2 counterexample: for a concrete multimodal call (`input_ids = [7, 1]`,
image token 7, validity mask `[1, 0]`), the language model is invoked with
`mask = none`, which is not the 4-D outer-product mask that
`get_input_embeddings` built; the decoder stack therefore falls back to its
internally built causal mask. -/
theorem c2_mask_not_forwarded_counterexample :
    (gemma3ModelCall 1 1 (some 0) 7 [[2]] [[3], [4]] [7, 1] [1, 0]).mask = none
    ∧ decoderStackMask
        (gemma3ModelCall 1 1 (some 0) 7 [[2]] [[3], [4]] [7, 1] [1, 0]).mask 2 =
        .causal 2
    ∧ (gemma3ModelCall 1 1 (some 0) 7 [[2]] [[3], [4]] [7, 1] [1, 0]).mask ≠
        some (get_input_embeddings 1 1 (some 0) 7 [[2]] [[3], [4]] [7, 1] [1, 0]).2 :=
  ⟨rfl, rfl, by simp [gemma3ModelCall]⟩

/-- C2 (amended): `prepare_inputs_for_multimodal` does build the 4-D mask as
the outer product of the validity mask with itself with a head-broadcast
axis (entry `(0, 0, i, j) = mask[j] * mask[i]`), and `get_input_embeddings`
returns it, but `Model.__call__` does not forward it: the language model
receives no mask and the decoder stack uses its internally built causal
mask. -/
theorem c2_mask_built_but_dropped (d : ℕ) (hsqrt : ℚ) (padId : Option ℤ)
    (img : ℤ) (feats embs : List (List ℚ)) (ids : List ℤ) (attnMask : List ℚ)
    (i j : ℕ) (hi : i < attnMask.length) (hj : j < attnMask.length) :
    ((((get_input_embeddings d hsqrt padId img feats embs ids attnMask).2.getD 0
        []).getD 0 []).getD i []).getD j 0
      = attnMask.getD j 0 * attnMask.getD i 0
    ∧ (gemma3ModelCall d hsqrt padId img feats embs ids attnMask).mask = none
    ∧ decoderStackMask
        (gemma3ModelCall d hsqrt padId img feats embs ids attnMask).mask
        ids.length = .causal ids.length := by
  refine ⟨?_, rfl, rfl⟩
  have h2 : (get_input_embeddings d hsqrt padId img feats embs ids attnMask).2
      = final_attention_mask_4d attnMask := rfl
  rw [h2]
  unfold final_attention_mask_4d
  have hmap : ∀ (f : ℚ → ℚ) (k : ℕ), k < attnMask.length →
      (attnMask.map f).getD k 0 = f (attnMask.getD k 0) := by
    intro f k hk
    rw [List.getD_eq_getElem _ _ (by simpa using hk), List.getElem_map,
      List.getD_eq_getElem _ _ hk]
  have houter : (attnMask.map (fun ai => attnMask.map (fun aj => aj * ai))).getD i []
      = attnMask.map (fun aj => aj * attnMask.getD i 0) := by
    rw [List.getD_eq_getElem _ _ (by simpa using hi), List.getElem_map,
      List.getD_eq_getElem _ _ hi]
  simp only [List.getD_cons_zero]
  rw [houter, hmap _ j hj]

/-- C2 witness: the amended statement at the concrete call of the
counterexample, entries `i = 0`, `j = 1`. -/
theorem c2_mask_built_but_dropped_witness :
    ((0 : ℕ) < ([1, 0] : List ℚ).length ∧ (1 : ℕ) < ([1, 0] : List ℚ).length)
    ∧ (((((get_input_embeddings 1 1 (some 0) 7 [[2]] [[3], [4]] [7, 1]
          [1, 0]).2.getD 0 []).getD 0 []).getD 0 []).getD 1 0
        = ([1, 0] : List ℚ).getD 1 0 * ([1, 0] : List ℚ).getD 0 0
      ∧ (gemma3ModelCall 1 1 (some 0) 7 [[2]] [[3], [4]] [7, 1] [1, 0]).mask = none
      ∧ decoderStackMask
          (gemma3ModelCall 1 1 (some 0) 7 [[2]] [[3], [4]] [7, 1] [1, 0]).mask
          ([7, 1] : List ℤ).length = .causal ([7, 1] : List ℤ).length) :=
  ⟨⟨by decide, by decide⟩,
    c2_mask_built_but_dropped 1 1 (some 0) 7 [[2]] [[3], [4]] [7, 1] [1, 0] 0 1
      (by decide) (by decide)⟩

end MlxVlm
